import Mathlib

/-!
Verification of the SPIR-V binary parser core (`src/rspirv/binary/parser.rs`)
via a shallow embedding in Lean.

Conventions of the embedding:
* Bytes are `Nat`s; every read masks with `% 256`, so any `List Nat` input
  behaves as the corresponding `u8` sequence.
* Machine integers are `Nat` (the source only uses unsigned integers here);
  32-bit words are produced by `wordAt`, which is `< 2^32` by construction.
* Floating point literals are kept as their raw bit patterns (the decoder's
  `float32`/`float64` merely reinterpret the decoded words as floats, which is
  a bijection on bits, and no arithmetic is performed on them).
* Rust panics (`assert!`, `expect`, out-of-bounds indexing) are modelled by a
  dedicated `abort` outcome that is propagated and never confused with the
  parser's `State` errors.
* The low-level word decoder (`binary/decoder.rs`) and the generated grammar
  tables / operand dispatcher (`parse_operand.rs`) are not under `src/`; they
  are modelled from the spec (sections 4.3 and 6) and are marked as such.
-/

deriving instance DecidableEq for Except

namespace Rspirv

/-- Errors of the external word decoder. Modelled from the spec: section 6
gives the decoder contract; every failing decode call reports
`StreamExpected(offset)`, the byte offset at which bytes were needed
(this also covers reads rejected by the per-instruction word budget). -/
inductive DecodeError
  | StreamExpected (offset : Nat)
deriving DecidableEq

/-- Parser state / error enumeration, from `enum State` in the source.
`ε` is the type of the opaque consumer error payload
(`Box<error::Error>` in the source). -/
inductive State (ε : Type)
  | Complete
  | ConsumerStopRequested
  | ConsumerError (e : ε)
  | HeaderIncomplete (err : DecodeError)
  | HeaderIncorrect
  | EndiannessUnsupported
  | WordCountZero (offset : Nat) (index : Nat)
  | OpcodeUnknown (offset : Nat) (index : Nat) (opcode : Nat)
  | OperandExpected (offset : Nat) (index : Nat)
  | OperandExceeded (offset : Nat) (index : Nat)
  | OperandError (err : DecodeError)
  | TypeUnsupported (offset : Nat) (index : Nat)
deriving DecidableEq

/-- Outcome of a fallible parsing step: either a `State` error as returned by
the source's `Result`, or `abort`, modelling a Rust panic
(`assert!` failure, `Option::expect` on `None`, index out of bounds). -/
inductive PErr (ε : Type)
  | st (s : State ε)
  | abort
deriving DecidableEq

/-- Orders a consumer sends back to the parser, from `enum Action`. -/
inductive Action (ε : Type)
  | Continue
  | Stop
  | Error (e : ε)
deriving DecidableEq

/-- The module header: five words (magic, version, generator, bound,
reserved), from `mr::ModuleHeader`. -/
structure ModuleHeader where
  magic : Nat
  version : Nat
  generator : Nat
  bound : Nat
  reserved : Nat
deriving DecidableEq

/-- Tracked types, from `enum Type` in the source (`Type` is a Lean keyword,
hence the name `Ty`): `Integer(width, signed)` or `Float(width)`. -/
inductive Ty
  | Integer (width : Nat) (signed : Bool)
  | Float (width : Nat)
deriving DecidableEq

/-- The type tracker's map from ids to types. The source uses a `HashMap`;
an association list updated by consing models `insert` (lookup returns the
most recent binding). -/
abbrev TypeMap := List (Nat × Ty)

/-- `TypeTracker::resolve`: map lookup, `None` when the id is untracked. -/
def resolve (m : TypeMap) (id : Nat) : Option Ty :=
  (m.find? (fun p => p.fst == id)).map (fun p => p.snd)

/-- Concrete operands, from `mr::Operand` (restricted to the variants the
claims exercise). Float literals carry raw bit patterns; strings are byte
lists (the decoder's UTF-8 conversion does not matter for any claim). -/
inductive Operand
  | LiteralInt32 (v : Nat)
  | LiteralInt64 (v : Nat)
  | LiteralFloat32 (bits : Nat)
  | LiteralFloat64 (bits : Nat)
  | IdRef (v : Nat)
  | SourceLanguage (v : Nat)
  | LiteralString (s : List Nat)
deriving DecidableEq

/-- Operand quantifiers, from `grammar::OperandQuantifier`. -/
inductive OperandQuantifier
  | One
  | ZeroOrOne
  | ZeroOrMore
deriving DecidableEq

/-- Logical operand kinds, from `grammar::OperandKind` (restricted to the
kinds the claims exercise). -/
inductive OperandKind
  | IdResultType
  | IdResult
  | LiteralContextDependentNumber
  | IdRef
  | LiteralInteger
  | SourceLanguage
  | LiteralString
deriving DecidableEq

/-- A logical operand slot of an instruction signature: (kind, quantifier). -/
structure LogicalOperand where
  kind : OperandKind
  quantifier : OperandQuantifier
deriving DecidableEq

/-- A static grammar entry for an opcode, from `grammar::Instruction`. -/
structure GInstruction where
  opcode : Nat
  opname : String
  operands : List LogicalOperand
deriving DecidableEq

/-- An emitted instruction, from `mr::Instruction`: its grammar entry
(field `class` in the source; `class` is a Lean keyword), the captured
result-type id and result id, and the concrete operand list. -/
structure Instruction where
  gclass : GInstruction
  result_type : Option Nat
  result_id : Option Nat
  operands : List Operand
deriving DecidableEq

/-- Modelled from the spec: the grammar table
(`grammar::InstructionTable::lookup_opcode`, generated code not under
`src/`). Signatures for the opcodes the claims exercise, from spec
sections 4.3, 8 and the SPIR-V grammar; all other opcodes are unknown. -/
def lookup_opcode (opcode : Nat) : Option GInstruction :=
  if opcode = 0 then
    some ⟨0, "Nop", []⟩
  else if opcode = 3 then
    some ⟨3, "Source",
      [⟨.SourceLanguage, .One⟩, ⟨.LiteralInteger, .One⟩,
       ⟨.IdRef, .ZeroOrOne⟩, ⟨.LiteralString, .ZeroOrOne⟩]⟩
  else if opcode = 21 then
    some ⟨21, "TypeInt",
      [⟨.IdResult, .One⟩, ⟨.LiteralInteger, .One⟩, ⟨.LiteralInteger, .One⟩]⟩
  else if opcode = 22 then
    some ⟨22, "TypeFloat",
      [⟨.IdResult, .One⟩, ⟨.LiteralInteger, .One⟩]⟩
  else if opcode = 43 then
    some ⟨43, "Constant",
      [⟨.IdResultType, .One⟩, ⟨.IdResult, .One⟩,
       ⟨.LiteralContextDependentNumber, .One⟩]⟩
  else if opcode = 48 then
    some ⟨48, "SpecConstant",
      [⟨.IdResultType, .One⟩, ⟨.IdResult, .One⟩,
       ⟨.LiteralContextDependentNumber, .One⟩]⟩
  else
    none

/-- Modelled from the spec: `grammar::reflect::is_type` (generated code not
under `src/`). The type-defining opcodes are the `OpType*` range,
`TypeVoid` (19) through `TypeForwardPointer` (39); in particular
`TypeInt` (21) and `TypeFloat` (22) are inside and `Constant` (43) is not. -/
def is_type_defining (opcode : Nat) : Bool :=
  19 ≤ opcode && opcode ≤ 39

/-- `TypeTracker::track`. On instructions with a result id: `OpTypeInt` with
two leading `LiteralInt32` operands records `Integer(bits, sign == 1)`;
`OpTypeFloat` with a leading `LiteralInt32` records `Float(bits)`; other
type-defining opcodes record nothing; non-type instructions copy the tracked
type of their result type id (if any) onto the result id. The source indexes
`inst.operands[0]` / `inst.operands[1]` directly, which panics when out of
bounds; that is the `.error ()` outcome (unreachable for instructions the
parser emits, since those operands have quantifier `One`). -/
def track (tr : TypeMap) (inst : Instruction) : Except Unit TypeMap :=
  match inst.result_id with
  | none => .ok tr
  | some rid =>
    if is_type_defining inst.gclass.opcode then
      if inst.gclass.opcode = 21 then
        match inst.operands.get? 0, inst.operands.get? 1 with
        | some o0, some o1 =>
          match o0, o1 with
          | .LiteralInt32 bits, .LiteralInt32 sign =>
            .ok ((rid, .Integer bits (sign == 1)) :: tr)
          | _, _ => .ok tr
        | _, _ => .error ()
      else if inst.gclass.opcode = 22 then
        match inst.operands.get? 0 with
        | some o0 =>
          match o0 with
          | .LiteralInt32 bits => .ok ((rid, .Float bits) :: tr)
          | _ => .ok tr
        | none => .error ()
      else
        .ok tr
    else
      match inst.result_type with
      | some t =>
        match resolve tr t with
        | some ty => .ok ((rid, ty) :: tr)
        | none => .ok tr
      | none => .ok tr

/-- The byte at index `i` of the input (0 when out of range; masked to u8). -/
def byteAt (bytes : List Nat) (i : Nat) : Nat :=
  (bytes.getD i 0) % 256

/-- The little-endian 32-bit word starting at byte offset `o`. -/
def wordAt (bytes : List Nat) (o : Nat) : Nat :=
  byteAt bytes o + 256 * byteAt bytes (o + 1) +
    65536 * byteAt bytes (o + 2) + 16777216 * byteAt bytes (o + 3)

/-- Modelled from the spec: the decoder's `word()` with no word budget set
(used for the header and for each instruction's first word; the source
clears the budget between instructions). Returns the decoded word and the
new byte offset, or `StreamExpected` at the current offset. -/
def wordNL (bytes : List Nat) (o : Nat) : Except DecodeError (Nat × Nat) :=
  if o + 4 ≤ bytes.length then .ok (wordAt bytes o, o + 4)
  else .error (.StreamExpected o)

/-- Decoder cursor state while a per-instruction word budget is active:
the byte offset and the remaining words of the budget
(`set_limit(wc - 1)` starts it; `limit_reached()` is `limit = 0`). -/
structure DecState where
  offset : Nat
  limit : Nat
deriving DecidableEq

/-- Modelled from the spec: the decoder's `word()` under an active word
budget. A read beyond the budget or beyond the stream fails with
`StreamExpected` at the current offset and does not advance. -/
def rdWord (bytes : List Nat) (d : DecState) : Except DecodeError (Nat × DecState) :=
  if d.limit = 0 then .error (.StreamExpected d.offset)
  else if d.offset + 4 ≤ bytes.length then
    .ok (wordAt bytes d.offset, ⟨d.offset + 4, d.limit - 1⟩)
  else .error (.StreamExpected d.offset)

/-- Modelled from the spec: the decoder's `int64()`: two words, low word
first. The pair also returns the cursor reached at the point of failure
(the first word stays consumed when the second read fails). -/
def rdInt64 (bytes : List Nat) (d : DecState) :
    Except DecodeError Nat × DecState :=
  match rdWord bytes d with
  | .error e => (.error e, d)
  | .ok (lo, d1) =>
    match rdWord bytes d1 with
    | .error e => (.error e, d1)
    | .ok (hi, d2) => (.ok (lo + 4294967296 * hi), d2)

/-- The four bytes of a word, low byte first. -/
def wordBytes (w : Nat) : List Nat :=
  [w % 256, w / 256 % 256, w / 65536 % 256, w / 16777216 % 256]

/-- Modelled from the spec: the decoder's `string()`, reading words until one
contains a NUL byte; the string is the bytes before the first NUL. The
recursion is structural on the remaining word budget, which every word read
decrements; the budget-zero base case is exactly `rdWord`'s budget failure. -/
def rdStringGo (bytes : List Nat) : Nat → Nat → Except DecodeError (List Nat) × DecState
  | 0, o => (.error (.StreamExpected o), ⟨o, 0⟩)
  | lim + 1, o =>
    if o + 4 ≤ bytes.length then
      if (wordBytes (wordAt bytes o)).contains 0 then
        (.ok ((wordBytes (wordAt bytes o)).takeWhile (fun b => b != 0)),
         ⟨o + 4, lim⟩)
      else
        match rdStringGo bytes lim (o + 4) with
        | (.ok s, d2) => (.ok (wordBytes (wordAt bytes o) ++ s), d2)
        | (.error e, d2) => (.error e, d2)
    else (.error (.StreamExpected o), ⟨o, lim + 1⟩)

/-- The decoder's `string()` on a cursor state. -/
def rdString (bytes : List Nat) (d : DecState) :
    Except DecodeError (List Nat) × DecState :=
  rdStringGo bytes d.limit d.offset

/-- `Parser::parse_literal`: decode a `LiteralContextDependentNumber` using
the tracked type of `type_id`. `Integer(32,_)` reads one word as
`LiteralInt32`; `Integer(64,_)` reads two words as `LiteralInt64`;
`Float(32)` / `Float(64)` likewise as float literals; any other tracked
width fails with `TypeUnsupported(offset, index)`; an untracked id falls
back to one word as `LiteralInt32`. Decode errors are wrapped as
`OperandError` by the `try_decode!` macro. -/
def parse_literal (ε : Type) (bytes : List Nat) (tr : TypeMap) (idx : Nat)
    (type_id : Nat) (d : DecState) : Except (State ε) Operand × DecState :=
  match resolve tr type_id with
  | some (.Integer size _) =>
    if size = 32 then
      match rdWord bytes d with
      | .ok (w, d1) => (.ok (.LiteralInt32 w), d1)
      | .error e => (.error (.OperandError e), d)
    else if size = 64 then
      match rdInt64 bytes d with
      | (.ok v, d1) => (.ok (.LiteralInt64 v), d1)
      | (.error e, d1) => (.error (.OperandError e), d1)
    else
      (.error (.TypeUnsupported d.offset idx), d)
  | some (.Float size) =>
    if size = 32 then
      match rdWord bytes d with
      | .ok (w, d1) => (.ok (.LiteralFloat32 w), d1)
      | .error e => (.error (.OperandError e), d)
    else if size = 64 then
      match rdInt64 bytes d with
      | (.ok v, d1) => (.ok (.LiteralFloat64 v), d1)
      | (.error e, d1) => (.error (.OperandError e), d1)
    else
      (.error (.TypeUnsupported d.offset idx), d)
  | none =>
    match rdWord bytes d with
    | .ok (w, d1) => (.ok (.LiteralInt32 w), d1)
    | .error e => (.error (.OperandError e), d)

/-- Modelled from the spec: the generated operand-kind dispatcher
(`parse_operand.rs`, not under `src/`), spec section 4.3: scalar kinds and
single-word literals read one word and push one tagged operand, enumerant
kinds read one word (the kinds the claims use carry no enumerant
parameters), `LiteralString` reads a NUL-terminated string. The three kinds
the walker intercepts (`IdResultType`, `IdResult`,
`LiteralContextDependentNumber`) never reach the dispatcher; they are given
the scalar one-word behaviour here. -/
def parse_operand (ε : Type) (bytes : List Nat) (k : OperandKind)
    (d : DecState) : Except (State ε) (List Operand) × DecState :=
  match k with
  | .IdRef =>
    match rdWord bytes d with
    | .ok (w, d1) => (.ok [.IdRef w], d1)
    | .error e => (.error (.OperandError e), d)
  | .LiteralInteger =>
    match rdWord bytes d with
    | .ok (w, d1) => (.ok [.LiteralInt32 w], d1)
    | .error e => (.error (.OperandError e), d)
  | .SourceLanguage =>
    match rdWord bytes d with
    | .ok (w, d1) => (.ok [.SourceLanguage w], d1)
    | .error e => (.error (.OperandError e), d)
  | .LiteralString =>
    match rdString bytes d with
    | (.ok s, d1) => (.ok [.LiteralString s], d1)
    | (.error e, d1) => (.error (.OperandError e), d1)
  | _ =>
    match rdWord bytes d with
    | .ok (w, d1) => (.ok [.IdRef w], d1)
    | .error e => (.error (.OperandError e), d)

/-- The logical operand slots left after a successful dispatch of `lop`:
the source's quantifier step, where `One` and `ZeroOrOne` advance
(`loperand_index += 1`) and `ZeroOrMore` stays on the same slot
(`continue`). -/
def nextSig (lop : LogicalOperand) (rest : List LogicalOperand) :
    List LogicalOperand :=
  match lop.quantifier with
  | .One => rest
  | .ZeroOrOne => rest
  | .ZeroOrMore => lop :: rest

/-- One iteration of the operand walker's `while` loop
(`Parser::parse_operands`), at slot `lop` with remaining slots `rest`:
when words remain in the budget, `IdResultType` / `IdResult` are captured
into the dedicated fields, `LiteralContextDependentNumber` asserts a
constant-defining opcode and dispatches `parse_literal` on the captured
result-type id (panicking if it was never captured), and every other kind
goes to the dispatcher; after a successful dispatch the walk continues
(`Sum.inr`) at `nextSig lop rest`. When the budget is exhausted, a
remaining `One` slot ends the walk (`Sum.inl`) with
`OperandExpected(offset, index)` and any other slot ends it successfully
(the source's `break`). -/
def walkStep (ε : Type) (bytes : List Nat) (g : GInstruction) (tr : TypeMap)
    (idx : Nat) (lop : LogicalOperand) (rest : List LogicalOperand)
    (rt rid : Option Nat) (acc : List Operand) (d : DecState) :
    Sum (Except (PErr ε) Instruction × DecState)
      (List LogicalOperand × Option Nat × Option Nat × List Operand × DecState) :=
  if d.limit = 0 then
    match lop.quantifier with
    | .One => .inl (.error (.st (.OperandExpected d.offset idx)), d)
    | .ZeroOrOne => .inl (.ok ⟨g, rt, rid, acc⟩, d)
    | .ZeroOrMore => .inl (.ok ⟨g, rt, rid, acc⟩, d)
  else
    match lop.kind with
    | .IdResultType =>
      match rdWord bytes d with
      | .error e => .inl (.error (.st (.OperandError e)), d)
      | .ok (w, d1) => .inr (nextSig lop rest, some w, rid, acc, d1)
    | .IdResult =>
      match rdWord bytes d with
      | .error e => .inl (.error (.st (.OperandError e)), d)
      | .ok (w, d1) => .inr (nextSig lop rest, rt, some w, acc, d1)
    | .LiteralContextDependentNumber =>
      if g.opcode = 43 ∨ g.opcode = 48 then
        match rt with
        | none => .inl (.error .abort, d)
        | some tid =>
          match parse_literal ε bytes tr idx tid d with
          | (.error e, d1) => .inl (.error (.st e), d1)
          | (.ok op, d1) => .inr (nextSig lop rest, rt, rid, acc ++ [op], d1)
      else .inl (.error .abort, d)
    | k =>
      match parse_operand ε bytes k d with
      | (.error e, d1) => .inl (.error (.st e), d1)
      | (.ok ops, d1) => .inr (nextSig lop rest, rt, rid, acc ++ ops, d1)

/-- `Parser::parse_operands`, the operand walker: iterates `walkStep` over
the logical operand slots, with an explicit fuel argument making the
recursion structural (the loop runs at most `limit + 1` times because every
dispatched operand consumes at least one word; `parse_operands` below
supplies sufficient fuel, and `parseOperandsF_fuel_congr` proves the fuel
choice irrelevant). An exhausted signature returns the constructed
instruction. -/
def parseOperandsF (ε : Type) (bytes : List Nat) (g : GInstruction)
    (tr : TypeMap) (idx : Nat) :
    Nat → List LogicalOperand → Option Nat → Option Nat → List Operand →
    DecState → Except (PErr ε) Instruction × DecState
  | 0, _, _, _, _, d => (.error .abort, d)
  | _ + 1, [], rt, rid, acc, d => (.ok ⟨g, rt, rid, acc⟩, d)
  | fuel + 1, lop :: rest, rt, rid, acc, d =>
    match walkStep ε bytes g tr idx lop rest rt rid acc d with
    | .inl out => out
    | .inr (sig2, rt2, rid2, acc2, d2) =>
      parseOperandsF ε bytes g tr idx fuel sig2 rt2 rid2 acc2 d2

/-- `Parser::parse_operands` with its (sufficient) fuel supplied. -/
def parse_operands (ε : Type) (bytes : List Nat) (g : GInstruction)
    (tr : TypeMap) (idx : Nat) (sig : List LogicalOperand)
    (rt rid : Option Nat) (acc : List Operand) (d : DecState) :
    Except (PErr ε) Instruction × DecState :=
  parseOperandsF ε bytes g tr idx (d.limit + 1) sig rt rid acc d

/-- `Parser::split_into_word_count_and_opcode`: high 16 bits are the word
count, low 16 bits the opcode. -/
def split_into_word_count_and_opcode (word : Nat) : Nat × Nat :=
  (word / 65536, word % 65536)

/-- Mutable parser fields threaded between instructions: the decoder byte
offset (no word budget is active at instruction boundaries), the 1-based
instruction index, and the type tracker. -/
structure PState where
  offset : Nat
  instIndex : Nat
  tracker : TypeMap
deriving DecidableEq

/-- `Parser::parse_inst`. Increments the instruction index; reads the first
word (a failed read is `Err(Complete)`, the end-of-stream sentinel); splits
it into word count and opcode; `wc = 0` is `WordCountZero` and an unknown
opcode is `OpcodeUnknown`, both at the offset where this word began
(`offset() - WORD_NUM_BYTES`); otherwise sets the word budget to `wc - 1`,
runs the operand walker, and — unless the walker panicked — returns
`OperandExceeded(offset, index)` when the budget is not exhausted, else the
walker's result with the budget cleared. -/
def parse_inst (ε : Type) (bytes : List Nat) (st : PState) :
    Except (PErr ε) Instruction × PState :=
  match wordNL bytes st.offset with
  | .error _ =>
    (.error (.st .Complete), { st with instIndex := st.instIndex + 1 })
  | .ok (w, o1) =>
    if (split_into_word_count_and_opcode w).fst = 0 then
      (.error (.st (.WordCountZero (o1 - 4) (st.instIndex + 1))),
       { st with instIndex := st.instIndex + 1 })
    else
      match lookup_opcode (split_into_word_count_and_opcode w).snd with
      | none =>
        (.error (.st (.OpcodeUnknown (o1 - 4) (st.instIndex + 1)
             ((split_into_word_count_and_opcode w).snd))),
         { st with instIndex := st.instIndex + 1 })
      | some g =>
        match parse_operands ε bytes g st.tracker (st.instIndex + 1) g.operands
            none none [] ⟨o1, (split_into_word_count_and_opcode w).fst - 1⟩ with
        | (.error .abort, d1) =>
          (.error .abort,
           { st with instIndex := st.instIndex + 1, offset := d1.offset })
        | (res, d1) =>
          if d1.limit ≠ 0 then
            (.error (.st (.OperandExceeded d1.offset (st.instIndex + 1))),
             { st with instIndex := st.instIndex + 1, offset := d1.offset })
          else
            (res, { st with instIndex := st.instIndex + 1, offset := d1.offset })

/-- The binary consumer (`trait Consumer`): four callbacks, each returning
an `Action` and (since the source takes `&mut self`) an updated consumer
state. The `initialize` callback is named `init` here. -/
structure Consumer (σ ε : Type) where
  init : σ → Action ε × σ
  finalize : σ → Action ε × σ
  consumeHeader : σ → ModuleHeader → Action ε × σ
  consumeInstruction : σ → Instruction → Action ε × σ

/-- `Parser::parse_header`: decode five words (sequentially at byte offsets
0, 4, 8, 12, 16 — each successful read advances the cursor by four); on
decoder failure `HeaderIncomplete(err)`; a magic word equal to
`MAGIC_NUMBER.swap_bytes()` is `EndiannessUnsupported`, any other mismatch
`HeaderIncorrect`; otherwise the header is built verbatim from the five
words. -/
def parse_header (ε : Type) (bytes : List Nat) : Except (State ε) ModuleHeader :=
  match wordNL bytes 0 with
  | .error e => .error (.HeaderIncomplete e)
  | .ok (w0, _) =>
    match wordNL bytes 4 with
    | .error e => .error (.HeaderIncomplete e)
    | .ok (w1, _) =>
      match wordNL bytes 8 with
      | .error e => .error (.HeaderIncomplete e)
      | .ok (w2, _) =>
        match wordNL bytes 12 with
        | .error e => .error (.HeaderIncomplete e)
        | .ok (w3, _) =>
          match wordNL bytes 16 with
          | .error e => .error (.HeaderIncomplete e)
          | .ok (w4, _) =>
            if w0 ≠ 119734787 then
              if w0 = 50471687 then .error .EndiannessUnsupported
              else .error .HeaderIncorrect
            else .ok ⟨w0, w1, w2, w3, w4⟩

/-- The instruction loop of `Parser::parse`, with an explicit fuel argument
making the recursion structural (every successful `parse_inst` consumes at
least four bytes, so `bytes.length + 1` iterations always suffice; `parse`
supplies that, and `parseLoopF_fuel_congr` proves the choice irrelevant).
Each iteration parses one instruction; on success it is offered to the type
tracker (a tracker panic aborts) and then to the consumer, whose `Stop` /
`Error` orders end the parse; `Err(Complete)` from `parse_inst` exits the
loop normally; any other error is returned. -/
def parseLoopF (σ ε : Type) (bytes : List Nat) (c : Consumer σ ε) :
    Nat → σ → PState → Except (PErr ε) Unit × σ
  | 0, cs, _ => (.error .abort, cs)
  | fuel + 1, cs, st =>
    match parse_inst ε bytes st with
    | (.ok inst, st1) =>
      match track st1.tracker inst with
      | .error _ => (.error .abort, cs)
      | .ok tr1 =>
        match c.consumeInstruction cs inst with
        | (.Continue, cs1) =>
          parseLoopF σ ε bytes c fuel cs1 { st1 with tracker := tr1 }
        | (.Stop, cs1) => (.error (.st .ConsumerStopRequested), cs1)
        | (.Error e, cs1) => (.error (.st (.ConsumerError e)), cs1)
    | (.error (.st .Complete), _) => (.ok (), cs)
    | (.error e, _) => (.error e, cs)

/-- `Parser::parse`: `initialize`; header; `consume_header`; the instruction
loop; `finalize`. Each consumer `Stop` is `ConsumerStopRequested` and each
`Error(e)` is `ConsumerError(e)`. Returns the result together with the final
consumer state (the source mutates the consumer through `&mut`). The loop
starts at byte offset 20, where the five header words end. -/
def parse (σ ε : Type) (bytes : List Nat) (c : Consumer σ ε) (cs : σ) :
    Except (PErr ε) Unit × σ :=
  match c.init cs with
  | (.Stop, cs1) => (.error (.st .ConsumerStopRequested), cs1)
  | (.Error e, cs1) => (.error (.st (.ConsumerError e)), cs1)
  | (.Continue, cs1) =>
    match parse_header ε bytes with
    | .error e => (.error (.st e), cs1)
    | .ok hdr =>
      match c.consumeHeader cs1 hdr with
      | (.Stop, cs2) => (.error (.st .ConsumerStopRequested), cs2)
      | (.Error e, cs2) => (.error (.st (.ConsumerError e)), cs2)
      | (.Continue, cs2) =>
        match parseLoopF σ ε bytes c (bytes.length + 1) cs2 ⟨20, 0, []⟩ with
        | (.error e, cs3) => (.error e, cs3)
        | (.ok (), cs3) =>
          match c.finalize cs3 with
          | (.Continue, cs4) => (.ok (), cs4)
          | (.Stop, cs4) => (.error (.st .ConsumerStopRequested), cs4)
          | (.Error e, cs4) => (.error (.st (.ConsumerError e)), cs4)

/-- The 20-byte zero-bound module header `H` used by the source's tests:
magic `03 02 23 07`, version 1.0, generator 0, bound 0, reserved 0. -/
def ZBH : List Nat :=
  [0x03, 0x02, 0x23, 0x07, 0x00, 0x00, 0x01, 0x00,
   0x00, 0x00, 0x00, 0x00, 0x00, 0x00, 0x00, 0x00,
   0x00, 0x00, 0x00, 0x00]

/-- A retaining consumer (the source's `RetainingConsumer`): keeps the header
and every instruction, always continuing. -/
def retaining : Consumer (Option ModuleHeader × List Instruction) Unit where
  init := fun s => (.Continue, s)
  finalize := fun s => (.Continue, s)
  consumeHeader := fun s h => (.Continue, (some h, s.2))
  consumeInstruction := fun s i => (.Continue, (s.1, s.2 ++ [i]))

/-- The empty retaining-consumer state. -/
def ret0 : Option ModuleHeader × List Instruction := (none, [])

/-- A consumer returning `Stop` from its `initialize` callback. -/
def stopAtInit : Consumer Unit Unit where
  init := fun _ => (.Stop, ())
  finalize := fun _ => (.Continue, ())
  consumeHeader := fun _ _ => (.Continue, ())
  consumeInstruction := fun _ _ => (.Continue, ())

/-- A consumer erroring out of its `consume_header` callback. -/
def errAtHeader : Consumer Unit Unit where
  init := fun _ => (.Continue, ())
  finalize := fun _ => (.Continue, ())
  consumeHeader := fun _ _ => (.Error (), ())
  consumeInstruction := fun _ _ => (.Continue, ())

/-- A consumer returning `Stop` from its `consume_instruction` callback. -/
def stopAtInst : Consumer Unit Unit where
  init := fun _ => (.Continue, ())
  finalize := fun _ => (.Continue, ())
  consumeHeader := fun _ _ => (.Continue, ())
  consumeInstruction := fun _ _ => (.Stop, ())

/-- A consumer returning `Stop` from its `finalize` callback. -/
def stopAtFinalize : Consumer Unit Unit where
  init := fun _ => (.Continue, ())
  finalize := fun _ => (.Stop, ())
  consumeHeader := fun _ _ => (.Continue, ())
  consumeInstruction := fun _ _ => (.Continue, ())

/-- Spec scenario 4: `OpTypeInt 32 signed` defining id 1, then `OpConstant`
(wc 4) of that type, result id 2, literal bytes `12 34 56 78`. -/
def sc4 : List Nat := ZBH ++
  [0x15, 0, 4, 0, 1, 0, 0, 0, 0x20, 0, 0, 0, 1, 0, 0, 0,
   0x2b, 0, 4, 0, 1, 0, 0, 0, 2, 0, 0, 0, 0x12, 0x34, 0x56, 0x78]

/-- Spec scenario 5: `OpTypeInt 64 signed`, then a 5-word `OpConstant` with
eight literal bytes `12 34 56 78 90 ab cd ef`. -/
def sc5 : List Nat := ZBH ++
  [0x15, 0, 4, 0, 1, 0, 0, 0, 0x40, 0, 0, 0, 1, 0, 0, 0,
   0x2b, 0, 5, 0, 1, 0, 0, 0, 2, 0, 0, 0,
   0x12, 0x34, 0x56, 0x78, 0x90, 0xab, 0xcd, 0xef]

/-- Spec scenario 8: `OpSource GLSL 450 file=6 source="wow"` (wc 5). -/
def src4 : List Nat := ZBH ++
  [3, 0, 5, 0, 2, 0, 0, 0, 0xc2, 1, 0, 0, 6, 0, 0, 0, 0x77, 0x6f, 0x77, 0]

/-- Scenario 8 truncated by its trailing optional string operand (wc 4). -/
def src3 : List Nat := ZBH ++
  [3, 0, 4, 0, 2, 0, 0, 0, 0xc2, 1, 0, 0, 6, 0, 0, 0]

/-- Scenario 8 truncated by its two trailing optional operands (wc 3). -/
def src2 : List Nat := ZBH ++
  [3, 0, 3, 0, 2, 0, 0, 0, 0xc2, 1, 0, 0]

/-- Spec scenario 7: a valid `OpNop`, then `OpNop` with wc 2 and one bogus
trailing word. -/
def sc7 : List Nat := ZBH ++ [0, 0, 1, 0, 0, 0, 2, 0, 0, 0, 0, 0]

/-- `OpTypeInt` with unsupported width 16, then `OpConstant` (wc 4): the
walker raises `TypeUnsupported` while one budgeted word remains. -/
def c10in : List Nat := ZBH ++
  [0x15, 0, 4, 0, 1, 0, 0, 0, 0x10, 0, 0, 0, 1, 0, 0, 0,
   0x2b, 0, 4, 0, 1, 0, 0, 0, 2, 0, 0, 0, 0, 0, 0, 0]

/-- `OpTypeInt` with width 64, then `OpConstant` with wc 4 (one literal word
short): the decode error inside the literal exhausts the budget exactly,
so the walker's own error surfaces. -/
def c10sf : List Nat := ZBH ++
  [0x15, 0, 4, 0, 1, 0, 0, 0, 0x40, 0, 0, 0, 1, 0, 0, 0,
   0x2b, 0, 4, 0, 1, 0, 0, 0, 2, 0, 0, 0, 0x12, 0x34, 0x56, 0x78]

/-- The grammar entry of `OpConstant`, as in `lookup_opcode`. -/
def constantGI : GInstruction :=
  ⟨43, "Constant",
    [⟨.IdResultType, .One⟩, ⟨.IdResult, .One⟩,
     ⟨.LiteralContextDependentNumber, .One⟩]⟩

/-! ### Decoder bookkeeping lemmas

Every word read advances the offset by four bytes and decrements the word
budget by one, so `offset + 4 * limit` is conserved by all the operand
decoding functions, the budget never grows, and a successful read strictly
shrinks it. These facts drive the termination and exact-consumption
arguments below. -/

theorem rdWord_ok {bytes : List Nat} {d d1 : DecState} {w : Nat}
    (h : rdWord bytes d = .ok (w, d1)) :
    d.limit ≠ 0 ∧ d.offset + 4 ≤ bytes.length ∧ w = wordAt bytes d.offset ∧
      d1 = ⟨d.offset + 4, d.limit - 1⟩ := by
  unfold rdWord at h
  split at h
  · exact absurd h (by simp)
  · split at h
    · rename_i hl hs
      simp only [Except.ok.injEq, Prod.mk.injEq] at h
      exact ⟨hl, hs, h.1.symm, h.2.symm⟩
    · exact absurd h (by simp)

theorem rdWord_inv {bytes : List Nat} {d d1 : DecState} {w : Nat}
    (h : rdWord bytes d = .ok (w, d1)) :
    d1.offset + 4 * d1.limit = d.offset + 4 * d.limit ∧ d1.limit < d.limit := by
  obtain ⟨h1, -, -, h4⟩ := rdWord_ok h
  subst h4
  simp only
  omega

theorem rdInt64_inv {bytes : List Nat} {d d1 : DecState}
    {res : Except DecodeError Nat} (h : rdInt64 bytes d = (res, d1)) :
    d1.offset + 4 * d1.limit = d.offset + 4 * d.limit ∧ d1.limit ≤ d.limit ∧
      ∀ v, res = .ok v → d1.limit < d.limit := by
  unfold rdInt64 at h
  split at h
  · injection h with h' h''
    subst h''
    exact ⟨rfl, Nat.le_refl _, by subst h'; intro v hv; cases hv⟩
  · rename_i lo da h1
    obtain ⟨e1, e2⟩ := rdWord_inv h1
    split at h
    · injection h with h' h''
      subst h''
      exact ⟨e1, by omega, by subst h'; intro v hv; cases hv⟩
    · rename_i hi db h2
      obtain ⟨f1, f2⟩ := rdWord_inv h2
      injection h with h' h''
      subst h''
      exact ⟨by omega, by omega, fun v hv => by omega⟩

theorem rdStringGo_inv {bytes : List Nat} :
    ∀ (lim o : Nat) {res : Except DecodeError (List Nat)} {d1 : DecState},
      rdStringGo bytes lim o = (res, d1) →
      d1.offset + 4 * d1.limit = o + 4 * lim ∧ d1.limit ≤ lim ∧
        ∀ s, res = .ok s → d1.limit < lim := by
  intro lim
  induction lim with
  | zero =>
    intro o res d1 h
    unfold rdStringGo at h
    injection h with h' h''
    subst h''
    exact ⟨rfl, Nat.le_refl _, by subst h'; intro s hs; cases hs⟩
  | succ n ih =>
    intro o res d1 h
    unfold rdStringGo at h
    repeat' split at h
    all_goals
      first
      | (rename_i s d2 hr
         have hinv := ih (o + 4) hr
         obtain ⟨i1, i2, i3⟩ := hinv
         injection h with h' h''
         subst h''
         exact ⟨by omega, by omega, fun s2 _ => by have := i3 s rfl; omega⟩)
      | (rename_i e d2 hr
         have hinv := ih (o + 4) hr
         obtain ⟨i1, i2, i3⟩ := hinv
         injection h with h' h''
         subst h''
         exact ⟨by omega, by omega, by subst h'; intro s hs; cases hs⟩)
      | (injection h with h' h''
         subst h''
         refine ⟨?_, ?_, fun s2 hs2 => ?_⟩ <;> (try subst h') <;>
           (try cases hs2) <;> dsimp only <;> omega)

theorem parse_literal_inv {ε : Type} {bytes : List Nat} {tr : TypeMap}
    {idx tid : Nat} {d d1 : DecState} {res : Except (State ε) Operand}
    (h : parse_literal ε bytes tr idx tid d = (res, d1)) :
    d1.offset + 4 * d1.limit = d.offset + 4 * d.limit ∧ d1.limit ≤ d.limit ∧
      ∀ v, res = .ok v → d1.limit < d.limit := by
  unfold parse_literal at h
  repeat' split at h
  all_goals
    first
    | (rename_i w da h1
       have hinv := rdWord_inv h1
       obtain ⟨e1, e2⟩ := hinv
       injection h with h' h''
       subst h''
       exact ⟨e1, by omega, fun v _ => e2⟩)
    | (rename_i v da h1
       have hinv := rdInt64_inv h1
       obtain ⟨e1, e2, e3⟩ := hinv
       injection h with h' h''
       subst h''
       exact ⟨e1, e2, fun v2 _ => e3 v rfl⟩)
    | (rename_i e da h1
       have hinv := rdInt64_inv h1
       obtain ⟨e1, e2, e3⟩ := hinv
       injection h with h' h''
       subst h''
       exact ⟨e1, e2, by subst h'; intro v hv; cases hv⟩)
    | (injection h with h' h''
       subst h''
       exact ⟨rfl, Nat.le_refl _, by subst h'; intro v hv; cases hv⟩)

theorem parse_operand_inv {ε : Type} {bytes : List Nat} {k : OperandKind}
    {d d1 : DecState} {res : Except (State ε) (List Operand)}
    (h : parse_operand ε bytes k d = (res, d1)) :
    d1.offset + 4 * d1.limit = d.offset + 4 * d.limit ∧ d1.limit ≤ d.limit ∧
      ∀ v, res = .ok v → d1.limit < d.limit := by
  unfold parse_operand at h
  repeat' split at h
  all_goals
    first
    | (rename_i w da h1
       have hinv := rdWord_inv h1
       obtain ⟨e1, e2⟩ := hinv
       injection h with h' h''
       subst h''
       exact ⟨e1, by omega, fun v _ => e2⟩)
    | (rename_i s da h1
       have hinv := rdStringGo_inv d.limit d.offset h1
       obtain ⟨e1, e2, e3⟩ := hinv
       injection h with h' h''
       subst h''
       exact ⟨e1, e2, fun v _ => e3 s rfl⟩)
    | (rename_i e da h1
       have hinv := rdStringGo_inv d.limit d.offset h1
       obtain ⟨e1, e2, e3⟩ := hinv
       injection h with h' h''
       subst h''
       exact ⟨e1, e2, by subst h'; intro v hv; cases hv⟩)
    | (injection h with h' h''
       subst h''
       exact ⟨rfl, Nat.le_refl _, by subst h'; intro v hv; cases hv⟩)

theorem walkStep_inl_inv {ε : Type} {bytes : List Nat} {g : GInstruction}
    {tr : TypeMap} {idx : Nat} {lop : LogicalOperand}
    {rest : List LogicalOperand} {rt rid : Option Nat} {acc : List Operand}
    {d d1 : DecState} {res : Except (PErr ε) Instruction × DecState}
    (h : walkStep ε bytes g tr idx lop rest rt rid acc d = .inl res)
    (hd : res.2 = d1) :
    d1.offset + 4 * d1.limit = d.offset + 4 * d.limit ∧ d1.limit ≤ d.limit := by
  subst hd
  unfold walkStep at h
  repeat' split at h
  all_goals try (exact Sum.noConfusion h)
  all_goals
    first
    | (rename_i e da h1
       have hl := parse_literal_inv h1
       injection h with h0
       subst h0
       exact ⟨hl.1, hl.2.1⟩)
    | (rename_i e da h1
       have hp := parse_operand_inv h1
       injection h with h0
       subst h0
       exact ⟨hp.1, hp.2.1⟩)
    | (injection h with h0
       subst h0
       exact ⟨rfl, Nat.le_refl _⟩)

theorem walkStep_inr_inv {ε : Type} {bytes : List Nat} {g : GInstruction}
    {tr : TypeMap} {idx : Nat} {lop : LogicalOperand}
    {rest sig2 : List LogicalOperand} {rt rid rt2 rid2 : Option Nat}
    {acc acc2 : List Operand} {d d2 : DecState}
    (h : walkStep ε bytes g tr idx lop rest rt rid acc d =
      .inr (sig2, rt2, rid2, acc2, d2)) :
    d2.offset + 4 * d2.limit = d.offset + 4 * d.limit ∧ d2.limit < d.limit := by
  unfold walkStep at h
  repeat' split at h
  all_goals try (exact Sum.noConfusion h)
  all_goals
    first
    | (rename_i w da h1
       have hw := rdWord_inv h1
       injection h with h0
       simp only [Prod.mk.injEq] at h0
       obtain ⟨-, -, -, -, h5⟩ := h0
       subst h5
       exact hw)
    | (rename_i op da h1
       have hl := parse_literal_inv h1
       injection h with h0
       simp only [Prod.mk.injEq] at h0
       obtain ⟨-, -, -, -, h5⟩ := h0
       subst h5
       exact ⟨hl.1, hl.2.2 _ rfl⟩)
    | (rename_i ops da h1
       have hp := parse_operand_inv h1
       injection h with h0
       simp only [Prod.mk.injEq] at h0
       obtain ⟨-, -, -, -, h5⟩ := h0
       subst h5
       exact ⟨hp.1, hp.2.2 _ rfl⟩)

theorem parseOperandsF_inv {ε : Type} {bytes : List Nat} {g : GInstruction}
    {tr : TypeMap} {idx : Nat} :
    ∀ (fuel : Nat) (sig : List LogicalOperand) (rt rid : Option Nat)
      (acc : List Operand) (d : DecState)
      (res : Except (PErr ε) Instruction) (d1 : DecState),
      parseOperandsF ε bytes g tr idx fuel sig rt rid acc d = (res, d1) →
      d1.offset + 4 * d1.limit = d.offset + 4 * d.limit ∧ d1.limit ≤ d.limit := by
  intro fuel
  induction fuel with
  | zero =>
    intro sig rt rid acc d res d1 h
    unfold parseOperandsF at h
    injection h with h' h''
    subst h''
    exact ⟨rfl, Nat.le_refl _⟩
  | succ n ih =>
    intro sig rt rid acc d res d1 h
    cases sig with
    | nil =>
      unfold parseOperandsF at h
      injection h with h' h''
      subst h''
      exact ⟨rfl, Nat.le_refl _⟩
    | cons lop rest =>
      unfold parseOperandsF at h
      split at h
      · rename_i out hstep
        have hi := walkStep_inl_inv hstep (congrArg Prod.snd h)
        exact hi
      · rename_i sig2 rt2 rid2 acc2 d2 hstep
        have hst := walkStep_inr_inv hstep
        have hiv := ih _ _ _ _ _ _ _ h
        exact ⟨by omega, by omega⟩

theorem parseOperandsF_fuel_congr {ε : Type} {bytes : List Nat}
    {g : GInstruction} {tr : TypeMap} {idx : Nat} :
    ∀ (f1 f2 : Nat) (sig : List LogicalOperand) (rt rid : Option Nat)
      (acc : List Operand) (d : DecState), d.limit < f1 → d.limit < f2 →
      parseOperandsF ε bytes g tr idx f1 sig rt rid acc d =
        parseOperandsF ε bytes g tr idx f2 sig rt rid acc d := by
  intro f1
  induction f1 with
  | zero => intro f2 sig rt rid acc d h1 h2; omega
  | succ n ih =>
    intro f2 sig rt rid acc d h1 h2
    cases f2 with
    | zero => omega
    | succ m =>
      cases sig with
      | nil => rfl
      | cons lop rest =>
        show parseOperandsF ε bytes g tr idx (n + 1) (lop :: rest) rt rid acc d =
          parseOperandsF ε bytes g tr idx (m + 1) (lop :: rest) rt rid acc d
        unfold parseOperandsF
        cases hstep : walkStep ε bytes g tr idx lop rest rt rid acc d with
        | inl out => rfl
        | inr q =>
          obtain ⟨sig2, rt2, rid2, acc2, d2⟩ := q
          have hst := walkStep_inr_inv hstep
          exact ih _ _ _ _ _ _ (by omega) (by omega)

theorem wordNL_ok {bytes : List Nat} {o w o1 : Nat}
    (h : wordNL bytes o = .ok (w, o1)) :
    o + 4 ≤ bytes.length ∧ w = wordAt bytes o ∧ o1 = o + 4 := by
  unfold wordNL at h
  split at h
  · rename_i hs
    simp only [Except.ok.injEq, Prod.mk.injEq] at h
    exact ⟨hs, h.1.symm, h.2.symm⟩
  · exact absurd h (by simp)

/-- A successful `parse_inst` consumed the instruction's first word plus
exactly its `wc - 1` budgeted operand words: the new offset is
`offset + 4 * wc`, where `wc` (nonzero) is the high half of the first word.
The instruction index advances by one and the tracker is untouched. -/
theorem parse_inst_ok {ε : Type} {bytes : List Nat} {st st1 : PState}
    {inst : Instruction}
    (h : parse_inst ε bytes st = (.ok inst, st1)) :
    st.offset + 4 ≤ bytes.length ∧
      st1.offset = st.offset + 4 * (wordAt bytes st.offset / 65536) ∧
      wordAt bytes st.offset / 65536 ≠ 0 ∧
      st1.instIndex = st.instIndex + 1 ∧ st1.tracker = st.tracker := by
  unfold parse_inst at h
  split at h
  · exact absurd (congrArg Prod.fst h) (by simp)
  · rename_i w o1 hw
    obtain ⟨hw1, hw2, hw3⟩ := wordNL_ok hw
    subst hw2
    subst hw3
    split at h
    · exact absurd (congrArg Prod.fst h) (by simp)
    · rename_i hwc
      split at h
      · exact absurd (congrArg Prod.fst h) (by simp)
      · rename_i g hg
        split at h
        · exact absurd (congrArg Prod.fst h) (by simp)
        · rename_i res d1 hnabort hops
          split at h
          · exact absurd (congrArg Prod.fst h) (by simp)
          · rename_i hlim
            have hiv := parseOperandsF_inv _ _ _ _ _ _ _ _ hops
            obtain ⟨hiv1, hiv2⟩ := hiv
            rw [not_ne_iff] at hlim
            injection h with h' h''
            subst h''
            unfold split_into_word_count_and_opcode at hwc hiv1 hiv2
            dsimp only at hwc hiv1 hiv2 ⊢
            exact ⟨hw1, by omega, hwc, rfl, rfl⟩

/-- When fewer than four bytes remain at an instruction boundary (zero or a
short read of 1-3 bytes), `parse_inst` reports the `Complete` sentinel. -/
theorem parse_inst_complete {ε : Type} {bytes : List Nat} {st : PState}
    (h : bytes.length < st.offset + 4) :
    parse_inst ε bytes st =
      (.error (.st .Complete), { st with instIndex := st.instIndex + 1 }) := by
  unfold parse_inst
  have hw : wordNL bytes st.offset = .error (.StreamExpected st.offset) := by
    unfold wordNL
    rw [if_neg (by omega)]
  rw [hw]

/-- `parse_header` never produces the `Complete` sentinel: its errors are
`HeaderIncomplete`, `EndiannessUnsupported` or `HeaderIncorrect`. -/
theorem parse_header_ne_complete {ε : Type} {bytes : List Nat} :
    parse_header ε bytes ≠ .error .Complete := by
  intro h
  unfold parse_header at h
  repeat' split at h
  all_goals simp at h

theorem parseLoopF_ne_complete {σ ε : Type} {bytes : List Nat}
    {c : Consumer σ ε} :
    ∀ (fuel : Nat) (cs : σ) (st : PState),
      (parseLoopF σ ε bytes c fuel cs st).1 ≠ .error (.st .Complete) := by
  intro fuel
  induction fuel with
  | zero =>
    intro cs st
    unfold parseLoopF
    simp
  | succ n ih =>
    intro cs st
    unfold parseLoopF
    repeat' split
    all_goals try (apply ih)
    all_goals intro hcc
    all_goals simp_all

theorem parseLoopF_fuel_congr {σ ε : Type} {bytes : List Nat}
    {c : Consumer σ ε} :
    ∀ (f1 f2 : Nat) (cs : σ) (st : PState),
      bytes.length - st.offset < f1 → bytes.length - st.offset < f2 →
      parseLoopF σ ε bytes c f1 cs st = parseLoopF σ ε bytes c f2 cs st := by
  intro f1
  induction f1 with
  | zero => intro f2 cs st h1 h2; omega
  | succ n ih =>
    intro f2 cs st h1 h2
    cases f2 with
    | zero => omega
    | succ m =>
      show parseLoopF σ ε bytes c (n + 1) cs st =
        parseLoopF σ ε bytes c (m + 1) cs st
      unfold parseLoopF
      rcases hpi : parse_inst ε bytes st with ⟨r, st1⟩
      cases r with
      | ok inst =>
        dsimp only
        cases htrack : track st1.tracker inst with
        | error u => rfl
        | ok tr1 =>
          rcases hci : c.consumeInstruction cs inst with ⟨a, cs1⟩
          cases a with
          | Continue =>
            dsimp only
            obtain ⟨e1, e2, e3, -, -⟩ := parse_inst_ok hpi
            exact ih _ _ _ (by dsimp only; omega) (by dsimp only; omega)
          | Stop => rfl
          | Error e => rfl
      | error pe =>
        cases pe with
        | abort => rfl
        | st s => cases s <;> rfl

/-! ### Claim theorems -/

/-- C1 (counterexample): the claim as stated is false. The input `H ++ [0]`
is the 20-byte header followed by a single trailing byte — a 1-byte short
read on the first word of the first instruction — yet `parse` returns `Ok`
instead of propagating a parse error: `parse_inst` maps every failed first
read, short or empty, to the `Complete` sentinel
(`if let Ok(word) = self.decoder.word() { .. } else { Err(State::Complete) }`). -/
theorem c1_counterexample :
    (ZBH ++ [0]).length = 21 ∧
      (parse (Option ModuleHeader × List Instruction) Unit (ZBH ++ [0])
          retaining ret0).1 = .ok () := by
  constructor
  · rfl
  · decide

/-- C1 (amended): if the decoder cannot supply the first word of an
instruction — whether zero bytes remain or only a 1-3 byte short read is
possible — `parse_inst` reports the `Complete` sentinel and the instruction
loop exits as normal completion with the consumer untouched. -/
theorem c1_theorem (σ ε : Type) (bytes : List Nat) (c : Consumer σ ε)
    (cs : σ) (st : PState) (fuel : Nat) :
    (bytes.length < st.offset + 4 →
      (parse_inst ε bytes st).1 = .error (.st .Complete)) ∧
    (bytes.length < st.offset + 4 →
      parseLoopF σ ε bytes c (fuel + 1) cs st = (.ok (), cs)) := by
  constructor
  · intro h
    rw [parse_inst_complete h]
  · intro h
    unfold parseLoopF
    simp only [parse_inst_complete h]

theorem c1_witness :
    (parse_inst Unit (ZBH ++ [0, 0]) ⟨20, 0, []⟩).1 =
        .error (.st .Complete) ∧
      parseLoopF Unit Unit (ZBH ++ [0, 0]) stopAtInst (0 + 1) () ⟨20, 0, []⟩ =
        (.ok (), ()) :=
  ⟨(c1_theorem Unit Unit (ZBH ++ [0, 0]) stopAtInst () ⟨20, 0, []⟩ 0).1
     (by decide),
   (c1_theorem Unit Unit (ZBH ++ [0, 0]) stopAtInst () ⟨20, 0, []⟩ 0).2
     (by decide)⟩

/-- C5: the type tracker on a successfully parsed instruction with a result
id records `Integer(bits, sign == 1)` for `OpTypeInt` whose operands begin
with two `LiteralInt32`s, records `Float(bits)` for `OpTypeFloat` with a
leading `LiteralInt32`, records nothing for any other type-defining opcode,
and for a non-type-defining instruction copies the tracked type of the
result-type id onto the result id. -/
theorem c5_theorem (tr : TypeMap) (inst : Instruction) (rid bits sign t : Nat)
    (rest : List Operand) (ty : Ty) :
    (inst.result_id = some rid → inst.gclass.opcode = 21 →
      inst.operands = .LiteralInt32 bits :: .LiteralInt32 sign :: rest →
      track tr inst = .ok ((rid, .Integer bits (sign == 1)) :: tr)) ∧
    (inst.result_id = some rid → inst.gclass.opcode = 22 →
      inst.operands = .LiteralInt32 bits :: rest →
      track tr inst = .ok ((rid, .Float bits) :: tr)) ∧
    (inst.result_id = some rid → is_type_defining inst.gclass.opcode = true →
      inst.gclass.opcode ≠ 21 → inst.gclass.opcode ≠ 22 →
      track tr inst = .ok tr) ∧
    (inst.result_id = some rid → is_type_defining inst.gclass.opcode = false →
      inst.result_type = some t → resolve tr t = some ty →
      track tr inst = .ok ((rid, ty) :: tr)) := by
  refine ⟨?_, ?_, ?_, ?_⟩
  · intro h1 h2 h3
    simp [track, h1, h2, h3, is_type_defining]
  · intro h1 h2 h3
    simp [track, h1, h2, h3, is_type_defining]
  · intro h1 h2 h3 h4
    simp [track, h1, h2, h3, h4]
  · intro h1 h2 h3 h4
    simp [track, h1, h2, h3, h4]

theorem c5_witness :
    track [] ⟨⟨21, "TypeInt",
        [⟨.IdResult, .One⟩, ⟨.LiteralInteger, .One⟩, ⟨.LiteralInteger, .One⟩]⟩,
      none, some 1, [.LiteralInt32 32, .LiteralInt32 1]⟩ =
      .ok [(1, .Integer 32 true)] :=
  (c5_theorem [] ⟨⟨21, "TypeInt",
      [⟨.IdResult, .One⟩, ⟨.LiteralInteger, .One⟩, ⟨.LiteralInteger, .One⟩]⟩,
    none, some 1, [.LiteralInt32 32, .LiteralInt32 1]⟩ 1 32 1 0 []
    (.Float 0)).1 rfl rfl rfl

/-- C8: a header word whose high half (the word count) is zero makes
`parse_inst` fail with `WordCountZero` carrying the byte offset at which
that word began (four bytes before the post-read position) and the 1-based
instruction index; concretely, `H ++ 00 00 00 00` gives
`WordCountZero(20, 1)`. -/
theorem c8_theorem (ε : Type) (bytes : List Nat) (st : PState) :
    (st.offset + 4 ≤ bytes.length → wordAt bytes st.offset / 65536 = 0 →
      parse_inst ε bytes st =
        (.error (.st (.WordCountZero st.offset (st.instIndex + 1))),
         { st with instIndex := st.instIndex + 1 })) ∧
    (parse (Option ModuleHeader × List Instruction) Unit
        (ZBH ++ [0, 0, 0, 0]) retaining ret0).1 =
      .error (.st (.WordCountZero 20 1)) := by
  constructor
  · intro h1 h2
    have hw : wordNL bytes st.offset =
        .ok (wordAt bytes st.offset, st.offset + 4) := by
      unfold wordNL
      rw [if_pos h1]
    unfold parse_inst
    simp only [hw]
    unfold split_into_word_count_and_opcode
    dsimp only
    rw [if_pos h2]
    simp
  · decide

theorem c8_witness :
    parse_inst Unit (ZBH ++ [0, 0, 0, 0]) ⟨20, 0, []⟩ =
      (.error (.st (.WordCountZero 20 1)), ⟨20, 1, []⟩) := by
  have h := (c8_theorem Unit (ZBH ++ [0, 0, 0, 0]) ⟨20, 0, []⟩).1
    (by decide) (by decide)
  exact h

/-- C9: every instruction `parse_inst` emits consumed exactly its declared
word count: the offset advanced by `4 * wc` words (the header word plus the
`wc - 1` budgeted operand words, the budget being exactly exhausted), and
`wc` is the nonzero high half of the instruction's first word. -/
theorem c9_theorem {ε : Type} {bytes : List Nat} {st st1 : PState}
    {inst : Instruction}
    (h : parse_inst ε bytes st = (.ok inst, st1)) :
    st1.offset = st.offset + 4 * (wordAt bytes st.offset / 65536) ∧
      wordAt bytes st.offset / 65536 ≠ 0 :=
  ⟨(parse_inst_ok h).2.1, (parse_inst_ok h).2.2.1⟩

theorem c9_witness :
    (⟨24, 1, []⟩ : PState).offset =
        20 + 4 * (wordAt (ZBH ++ [0, 0, 1, 0]) 20 / 65536) ∧
      wordAt (ZBH ++ [0, 0, 1, 0]) 20 / 65536 ≠ 0 :=
  @c9_theorem Unit (ZBH ++ [0, 0, 1, 0]) ⟨20, 0, []⟩ ⟨24, 1, []⟩
    ⟨⟨0, "Nop", []⟩, none, none, []⟩ (by decide)

/-- C6: header parsing. A failing five-word header decode yields
`HeaderIncomplete` wrapping the decode error (on empty input,
`HeaderIncomplete(StreamExpected 0)`); a magic word equal to the
byte-reversed magic number `0x03022307` yields `EndiannessUnsupported`;
any other magic mismatch yields `HeaderIncorrect`; otherwise the header is
built verbatim from the five words. -/
theorem c6_theorem (ε : Type) (bytes : List Nat) :
    (bytes.length < 20 →
      ∃ de, parse_header ε bytes = .error (.HeaderIncomplete de)) ∧
    (20 ≤ bytes.length → wordAt bytes 0 = 50471687 →
      parse_header ε bytes = .error .EndiannessUnsupported) ∧
    (20 ≤ bytes.length → wordAt bytes 0 ≠ 119734787 →
      wordAt bytes 0 ≠ 50471687 →
      parse_header ε bytes = .error .HeaderIncorrect) ∧
    (20 ≤ bytes.length → wordAt bytes 0 = 119734787 →
      parse_header ε bytes =
        .ok ⟨wordAt bytes 0, wordAt bytes 4, wordAt bytes 8, wordAt bytes 12,
          wordAt bytes 16⟩) ∧
    parse_header ε ([] : List Nat) =
      .error (.HeaderIncomplete (.StreamExpected 0)) := by
  have hok : ∀ o : Nat, o + 4 ≤ bytes.length →
      wordNL bytes o = .ok (wordAt bytes o, o + 4) := by
    intro o ho
    unfold wordNL
    rw [if_pos ho]
  refine ⟨?_, ?_, ?_, ?_, rfl⟩
  · intro h
    have hw16 : wordNL bytes 16 = .error (.StreamExpected 16) := by
      unfold wordNL
      rw [if_neg (by omega)]
    unfold parse_header
    simp only [hw16]
    repeat' split
    all_goals exact ⟨_, rfl⟩
  · intro h hm
    unfold parse_header
    simp only [hok 0 (by omega), hok 4 (by omega), hok 8 (by omega),
      hok 12 (by omega), hok 16 (by omega), hm]
    simp
  · intro h hm1 hm2
    unfold parse_header
    simp only [hok 0 (by omega), hok 4 (by omega), hok 8 (by omega),
      hok 12 (by omega), hok 16 (by omega)]
    rw [if_pos hm1, if_neg hm2]
  · intro h hm
    unfold parse_header
    simp only [hok 0 (by omega), hok 4 (by omega), hok 8 (by omega),
      hok 12 (by omega), hok 16 (by omega), hm]
    simp

theorem c6_witness :
    parse_header Unit ZBH =
      .ok ⟨wordAt ZBH 0, wordAt ZBH 4, wordAt ZBH 8, wordAt ZBH 12,
        wordAt ZBH 16⟩ :=
  (c6_theorem Unit ZBH).2.2.2.1 (by decide) (by decide)

/-- C2: dispatching a `LiteralContextDependentNumber` resolves the captured
result-type id in the type tracker: `Integer(32,_)` decodes one word as
`LiteralInt32`; `Integer(64,_)` decodes two words (low word first) as
`LiteralInt64`; `Float(32)` / `Float(64)` decode one / two words as
`LiteralFloat32` / `LiteralFloat64`; any other tracked width fails with
`TypeUnsupported(offset, index)`; an untracked id falls back to decoding
one word as `LiteralInt32`. The closed conjuncts run spec scenarios 4 and 5
end to end: the `OpConstant` following an `OpTypeInt` of width 32 (resp.
64) is emitted with operand `LiteralInt32 0x78563412` (resp.
`LiteralInt64 0xefcdab9078563412`). -/
theorem c2_theorem (ε : Type) (bytes : List Nat) (tr : TypeMap)
    (idx tid : Nat) (d : DecState) :
    (∀ s, resolve tr tid = some (.Integer 32 s) → d.limit ≠ 0 →
      d.offset + 4 ≤ bytes.length →
      parse_literal ε bytes tr idx tid d =
        (.ok (.LiteralInt32 (wordAt bytes d.offset)),
         ⟨d.offset + 4, d.limit - 1⟩)) ∧
    (∀ s, resolve tr tid = some (.Integer 64 s) → 2 ≤ d.limit →
      d.offset + 8 ≤ bytes.length →
      parse_literal ε bytes tr idx tid d =
        (.ok (.LiteralInt64
            (wordAt bytes d.offset + 4294967296 * wordAt bytes (d.offset + 4))),
         ⟨d.offset + 8, d.limit - 2⟩)) ∧
    (resolve tr tid = some (.Float 32) → d.limit ≠ 0 →
      d.offset + 4 ≤ bytes.length →
      parse_literal ε bytes tr idx tid d =
        (.ok (.LiteralFloat32 (wordAt bytes d.offset)),
         ⟨d.offset + 4, d.limit - 1⟩)) ∧
    (resolve tr tid = some (.Float 64) → 2 ≤ d.limit →
      d.offset + 8 ≤ bytes.length →
      parse_literal ε bytes tr idx tid d =
        (.ok (.LiteralFloat64
            (wordAt bytes d.offset + 4294967296 * wordAt bytes (d.offset + 4))),
         ⟨d.offset + 8, d.limit - 2⟩)) ∧
    (∀ w s, resolve tr tid = some (.Integer w s) → w ≠ 32 → w ≠ 64 →
      parse_literal ε bytes tr idx tid d =
        (.error (.TypeUnsupported d.offset idx), d)) ∧
    (∀ w, resolve tr tid = some (.Float w) → w ≠ 32 → w ≠ 64 →
      parse_literal ε bytes tr idx tid d =
        (.error (.TypeUnsupported d.offset idx), d)) ∧
    (resolve tr tid = none → d.limit ≠ 0 → d.offset + 4 ≤ bytes.length →
      parse_literal ε bytes tr idx tid d =
        (.ok (.LiteralInt32 (wordAt bytes d.offset)),
         ⟨d.offset + 4, d.limit - 1⟩)) ∧
    ((parse (Option ModuleHeader × List Instruction) Unit sc4 retaining
        ret0).2.2.getD 1 ⟨⟨0, "", []⟩, none, none, []⟩ =
      ⟨constantGI, some 1, some 2, [.LiteralInt32 0x78563412]⟩) ∧
    ((parse (Option ModuleHeader × List Instruction) Unit sc5 retaining
        ret0).2.2.getD 1 ⟨⟨0, "", []⟩, none, none, []⟩ =
      ⟨constantGI, some 1, some 2, [.LiteralInt64 0xefcdab9078563412]⟩) := by
  have hrd : ∀ dd : DecState, dd.limit ≠ 0 → dd.offset + 4 ≤ bytes.length →
      rdWord bytes dd =
        .ok (wordAt bytes dd.offset, ⟨dd.offset + 4, dd.limit - 1⟩) := by
    intro dd h1 h2
    unfold rdWord
    rw [if_neg h1, if_pos h2]
  refine ⟨?_, ?_, ?_, ?_, ?_, ?_, ?_, by decide, by decide⟩
  · intro s h1 h2 h3
    simp [parse_literal, h1, hrd d h2 h3]
  · intro s h1 h2 h3
    have ha := hrd d (by omega) (by omega)
    have hb := hrd ⟨d.offset + 4, d.limit - 1⟩ (by dsimp only; omega)
      (by dsimp only; omega)
    dsimp only at hb
    simp [parse_literal, rdInt64, h1, ha, hb]
    omega
  · intro h1 h2 h3
    simp [parse_literal, h1, hrd d h2 h3]
  · intro h1 h2 h3
    have ha := hrd d (by omega) (by omega)
    have hb := hrd ⟨d.offset + 4, d.limit - 1⟩ (by dsimp only; omega)
      (by dsimp only; omega)
    dsimp only at hb
    simp [parse_literal, rdInt64, h1, ha, hb]
    omega
  · intro w s h1 h2 h3
    simp [parse_literal, h1, h2, h3]
  · intro w h1 h2 h3
    simp [parse_literal, h1, h2, h3]
  · intro h1 h2 h3
    simp [parse_literal, h1, hrd d h2 h3]

theorem c2_witness :
    parse_literal Unit sc4 [(1, .Integer 32 true)] 2 1 ⟨40, 1⟩ =
      (.ok (.LiteralInt32 (wordAt sc4 40)), ⟨44, 0⟩) :=
  (c2_theorem Unit sc4 [(1, .Integer 32 true)] 2 1 ⟨40, 1⟩).1 true
    (by decide) (by decide) (by decide)

/-- C3: the operand walker advances past a `One` or `ZeroOrOne` slot after
dispatching it and stays on a `ZeroOrMore` slot; when the word budget is
exhausted with a mandatory `One` slot remaining it fails with
`OperandExpected(offset, index)`, and when it is exhausted at a `ZeroOrOne`
or `ZeroOrMore` slot the instruction succeeds with the operands collected so
far. The closed conjuncts run spec scenario 8 and its truncations end to
end: `OpSource` parses `Ok` with 4, 3 and 2 operands respectively. -/
theorem c3_theorem (ε : Type) (bytes : List Nat) (g : GInstruction)
    (tr : TypeMap) (idx : Nat) (lop : LogicalOperand)
    (rest : List LogicalOperand) (rt rid : Option Nat) (acc : List Operand)
    (d : DecState) :
    (∀ ops d1, lop.kind ≠ .IdResultType → lop.kind ≠ .IdResult →
      lop.kind ≠ .LiteralContextDependentNumber →
      lop.quantifier = .One ∨ lop.quantifier = .ZeroOrOne → d.limit ≠ 0 →
      parse_operand ε bytes lop.kind d = (.ok ops, d1) →
      parse_operands ε bytes g tr idx (lop :: rest) rt rid acc d =
        parse_operands ε bytes g tr idx rest rt rid (acc ++ ops) d1) ∧
    (∀ ops d1, lop.kind ≠ .IdResultType → lop.kind ≠ .IdResult →
      lop.kind ≠ .LiteralContextDependentNumber →
      lop.quantifier = .ZeroOrMore → d.limit ≠ 0 →
      parse_operand ε bytes lop.kind d = (.ok ops, d1) →
      parse_operands ε bytes g tr idx (lop :: rest) rt rid acc d =
        parse_operands ε bytes g tr idx (lop :: rest) rt rid (acc ++ ops) d1) ∧
    (d.limit = 0 → lop.quantifier = .One →
      parse_operands ε bytes g tr idx (lop :: rest) rt rid acc d =
        (.error (.st (.OperandExpected d.offset idx)), d)) ∧
    (d.limit = 0 → lop.quantifier ≠ .One →
      parse_operands ε bytes g tr idx (lop :: rest) rt rid acc d =
        (.ok ⟨g, rt, rid, acc⟩, d)) ∧
    ((parse (Option ModuleHeader × List Instruction) Unit src4 retaining
        ret0).1 = .ok () ∧
      (parse (Option ModuleHeader × List Instruction) Unit src4 retaining
          ret0).2.2.map (fun i => i.operands) =
        [[.SourceLanguage 2, .LiteralInt32 450, .IdRef 6,
          .LiteralString [0x77, 0x6f, 0x77]]]) ∧
    ((parse (Option ModuleHeader × List Instruction) Unit src3 retaining
        ret0).1 = .ok () ∧
      (parse (Option ModuleHeader × List Instruction) Unit src3 retaining
          ret0).2.2.map (fun i => i.operands) =
        [[.SourceLanguage 2, .LiteralInt32 450, .IdRef 6]]) ∧
    ((parse (Option ModuleHeader × List Instruction) Unit src2 retaining
        ret0).1 = .ok () ∧
      (parse (Option ModuleHeader × List Instruction) Unit src2 retaining
          ret0).2.2.map (fun i => i.operands) =
        [[.SourceLanguage 2, .LiteralInt32 450]]) := by
  have hstep_gen : ∀ (ops : List Operand) (d1 : DecState),
      lop.kind ≠ .IdResultType → lop.kind ≠ .IdResult →
      lop.kind ≠ .LiteralContextDependentNumber → d.limit ≠ 0 →
      parse_operand ε bytes lop.kind d = (.ok ops, d1) →
      walkStep ε bytes g tr idx lop rest rt rid acc d =
        .inr (nextSig lop rest, rt, rid, acc ++ ops, d1) := by
    intro ops d1 hk1 hk2 hk3 hlim hdisp
    unfold walkStep
    rw [if_neg hlim]
    cases hkk : lop.kind <;>
      first
      | exact absurd hkk hk1
      | exact absurd hkk hk2
      | exact absurd hkk hk3
      | (rw [hkk] at hdisp; simp only [hdisp])
  refine ⟨?_, ?_, ?_, ?_, ⟨by decide, by decide⟩, ⟨by decide, by decide⟩,
    ⟨by decide, by decide⟩⟩
  · intro ops d1 hk1 hk2 hk3 hq hlim hdisp
    have hstrict := (parse_operand_inv hdisp).2.2 _ rfl
    have hstep := hstep_gen ops d1 hk1 hk2 hk3 hlim hdisp
    have hnext : nextSig lop rest = rest := by
      rcases hq with hq | hq <;> simp [nextSig, hq]
    calc parse_operands ε bytes g tr idx (lop :: rest) rt rid acc d
        = parseOperandsF ε bytes g tr idx d.limit (nextSig lop rest) rt rid
            (acc ++ ops) d1 := by
          unfold parse_operands
          simp only [parseOperandsF, hstep]
      _ = parse_operands ε bytes g tr idx rest rt rid (acc ++ ops) d1 := by
          unfold parse_operands
          rw [hnext]
          exact parseOperandsF_fuel_congr _ _ _ _ _ _ _ (by omega) (by omega)
  · intro ops d1 hk1 hk2 hk3 hq hlim hdisp
    have hstrict := (parse_operand_inv hdisp).2.2 _ rfl
    have hstep := hstep_gen ops d1 hk1 hk2 hk3 hlim hdisp
    have hnext : nextSig lop rest = lop :: rest := by
      simp [nextSig, hq]
    calc parse_operands ε bytes g tr idx (lop :: rest) rt rid acc d
        = parseOperandsF ε bytes g tr idx d.limit (nextSig lop rest) rt rid
            (acc ++ ops) d1 := by
          unfold parse_operands
          simp only [parseOperandsF, hstep]
      _ = parse_operands ε bytes g tr idx (lop :: rest) rt rid (acc ++ ops)
            d1 := by
          unfold parse_operands
          rw [hnext]
          exact parseOperandsF_fuel_congr _ _ _ _ _ _ _ (by omega) (by omega)
  · intro hlim hq
    have hstep : walkStep ε bytes g tr idx lop rest rt rid acc d =
        .inl (.error (.st (.OperandExpected d.offset idx)), d) := by
      unfold walkStep
      rw [if_pos hlim, hq]
    unfold parse_operands
    simp only [parseOperandsF, hstep]
  · intro hlim hq
    have hstep : walkStep ε bytes g tr idx lop rest rt rid acc d =
        .inl (.ok ⟨g, rt, rid, acc⟩, d) := by
      unfold walkStep
      rw [if_pos hlim]
      cases hqq : lop.quantifier
      · exact absurd hqq hq
      · rfl
      · rfl
    unfold parse_operands
    simp only [parseOperandsF, hstep]

theorem c3_witness :
    parse_operands Unit src4 constantGI [] 1
        (⟨.SourceLanguage, .One⟩ ::
          [⟨.LiteralInteger, .One⟩, ⟨.IdRef, .ZeroOrOne⟩,
           ⟨.LiteralString, .ZeroOrOne⟩])
        none none [] ⟨24, 4⟩ =
      parse_operands Unit src4 constantGI [] 1
        [⟨.LiteralInteger, .One⟩, ⟨.IdRef, .ZeroOrOne⟩,
         ⟨.LiteralString, .ZeroOrOne⟩]
        none none ([] ++ [.SourceLanguage 2]) ⟨28, 3⟩ :=
  (c3_theorem Unit src4 constantGI [] 1 ⟨.SourceLanguage, .One⟩
      [⟨.LiteralInteger, .One⟩, ⟨.IdRef, .ZeroOrOne⟩,
       ⟨.LiteralString, .ZeroOrOne⟩]
      none none [] ⟨24, 4⟩).1 [.SourceLanguage 2] ⟨28, 3⟩
    (by decide) (by decide) (by decide) (by decide) (by decide) (by decide)

/-- C4: when the operand walker returns `Ok` but the per-instruction word
budget (`wc - 1` words) is not fully consumed, `parse_inst` fails with
`OperandExceeded(current_byte_offset, index)`; in particular the input
`H || OpNop || OpNop(wc=2) || bogus word` gives `OperandExceeded(28, 2)`. -/
theorem c4_theorem (ε : Type) (bytes : List Nat) (st : PState)
    (g : GInstruction) (inst : Instruction) (d1 : DecState) :
    (st.offset + 4 ≤ bytes.length →
      wordAt bytes st.offset / 65536 ≠ 0 →
      lookup_opcode (wordAt bytes st.offset % 65536) = some g →
      parse_operands ε bytes g st.tracker (st.instIndex + 1) g.operands
          none none [] ⟨st.offset + 4, wordAt bytes st.offset / 65536 - 1⟩ =
        (.ok inst, d1) →
      d1.limit ≠ 0 →
      (parse_inst ε bytes st).1 =
        .error (.st (.OperandExceeded d1.offset (st.instIndex + 1)))) ∧
    (parse (Option ModuleHeader × List Instruction) Unit sc7 retaining
        ret0).1 = .error (.st (.OperandExceeded 28 2)) := by
  constructor
  · intro h1 h2 h3 h4 h5
    have hw : wordNL bytes st.offset =
        .ok (wordAt bytes st.offset, st.offset + 4) := by
      unfold wordNL
      rw [if_pos h1]
    unfold parse_inst
    simp only [hw]
    unfold split_into_word_count_and_opcode
    dsimp only
    rw [if_neg h2]
    simp only [h3, h4]
    rw [if_pos h5]
  · decide

theorem c4_witness :
    (parse_inst Unit sc7 ⟨24, 1, []⟩).1 =
      .error (.st (.OperandExceeded 28 2)) :=
  (c4_theorem Unit sc7 ⟨24, 1, []⟩ ⟨0, "Nop", []⟩
      ⟨⟨0, "Nop", []⟩, none, none, []⟩ ⟨28, 1⟩).1
    (by decide) (by decide) (by decide) (by decide) (by decide)

/-- C10 (implicit): `parse_inst` checks the word budget before inspecting
the walker's result, so a walker error raised while budgeted words remain is
shadowed by `OperandExceeded`; the walker's own error surfaces only when the
budget is exactly exhausted. The closed conjuncts: an `OpConstant` whose
result type is a tracked 16-bit integer raises `TypeUnsupported` with one
budgeted word left and the caller sees `OperandExceeded(48, 2)`; the same
instruction with a tracked 64-bit integer type and a one-word-short literal
exhausts the budget inside the literal decode and the walker's
`OperandError(StreamExpected 52)` surfaces. -/
theorem c10_theorem (ε : Type) (bytes : List Nat) (st : PState)
    (g : GInstruction) (e : State ε) (d1 : DecState) :
    (st.offset + 4 ≤ bytes.length →
      wordAt bytes st.offset / 65536 ≠ 0 →
      lookup_opcode (wordAt bytes st.offset % 65536) = some g →
      parse_operands ε bytes g st.tracker (st.instIndex + 1) g.operands
          none none [] ⟨st.offset + 4, wordAt bytes st.offset / 65536 - 1⟩ =
        (.error (.st e), d1) →
      d1.limit ≠ 0 →
      (parse_inst ε bytes st).1 =
        .error (.st (.OperandExceeded d1.offset (st.instIndex + 1)))) ∧
    (st.offset + 4 ≤ bytes.length →
      wordAt bytes st.offset / 65536 ≠ 0 →
      lookup_opcode (wordAt bytes st.offset % 65536) = some g →
      parse_operands ε bytes g st.tracker (st.instIndex + 1) g.operands
          none none [] ⟨st.offset + 4, wordAt bytes st.offset / 65536 - 1⟩ =
        (.error (.st e), d1) →
      d1.limit = 0 →
      (parse_inst ε bytes st).1 = .error (.st e)) ∧
    (parse (Option ModuleHeader × List Instruction) Unit c10in retaining
        ret0).1 = .error (.st (.OperandExceeded 48 2)) ∧
    (parse (Option ModuleHeader × List Instruction) Unit c10sf retaining
        ret0).1 = .error (.st (.OperandError (.StreamExpected 52))) := by
  refine ⟨?_, ?_, by decide, by decide⟩
  · intro h1 h2 h3 h4 h5
    have hw : wordNL bytes st.offset =
        .ok (wordAt bytes st.offset, st.offset + 4) := by
      unfold wordNL
      rw [if_pos h1]
    unfold parse_inst
    simp only [hw]
    unfold split_into_word_count_and_opcode
    dsimp only
    rw [if_neg h2]
    simp only [h3, h4]
    rw [if_pos h5]
  · intro h1 h2 h3 h4 h5
    have hw : wordNL bytes st.offset =
        .ok (wordAt bytes st.offset, st.offset + 4) := by
      unfold wordNL
      rw [if_pos h1]
    unfold parse_inst
    simp only [hw]
    unfold split_into_word_count_and_opcode
    dsimp only
    rw [if_neg h2]
    simp only [h3, h4]
    rw [if_neg (by omega)]

theorem c10_witness :
    (parse_inst Unit c10in ⟨36, 1, [(1, .Integer 16 true)]⟩).1 =
      .error (.st (.OperandExceeded 48 2)) :=
  (c10_theorem Unit c10in ⟨36, 1, [(1, .Integer 16 true)]⟩ constantGI
      (.TypeUnsupported 48 2) ⟨48, 1⟩).1
    (by decide) (by decide) (by decide) (by decide) (by decide)

/-- C7: at each of the four consumer callbacks (`initialize`,
`consume_header`, `consume_instruction`, `finalize`), a `Stop` order makes
`parse` fail with `ConsumerStopRequested` and an `Error(e)` order with
`ConsumerError(e)`; and for every input and consumer, `parse` never returns
the `Complete` sentinel to the caller (the instruction loop consumes it as
the end-of-stream marker). -/
theorem c7_theorem (σ ε : Type) (bytes : List Nat) (c : Consumer σ ε)
    (cs : σ) :
    (∀ cs1, c.init cs = (.Stop, cs1) →
      parse σ ε bytes c cs = (.error (.st .ConsumerStopRequested), cs1)) ∧
    (∀ e cs1, c.init cs = (.Error e, cs1) →
      parse σ ε bytes c cs = (.error (.st (.ConsumerError e)), cs1)) ∧
    (∀ cs1 hdr cs2, c.init cs = (.Continue, cs1) →
      parse_header ε bytes = .ok hdr →
      c.consumeHeader cs1 hdr = (.Stop, cs2) →
      parse σ ε bytes c cs = (.error (.st .ConsumerStopRequested), cs2)) ∧
    (∀ cs1 hdr cs2 e, c.init cs = (.Continue, cs1) →
      parse_header ε bytes = .ok hdr →
      c.consumeHeader cs1 hdr = (.Error e, cs2) →
      parse σ ε bytes c cs = (.error (.st (.ConsumerError e)), cs2)) ∧
    (∀ fuel st inst st1 tr1 cs1, parse_inst ε bytes st = (.ok inst, st1) →
      track st1.tracker inst = .ok tr1 →
      c.consumeInstruction cs inst = (.Stop, cs1) →
      parseLoopF σ ε bytes c (fuel + 1) cs st =
        (.error (.st .ConsumerStopRequested), cs1)) ∧
    (∀ fuel st inst st1 tr1 cs1 e, parse_inst ε bytes st = (.ok inst, st1) →
      track st1.tracker inst = .ok tr1 →
      c.consumeInstruction cs inst = (.Error e, cs1) →
      parseLoopF σ ε bytes c (fuel + 1) cs st =
        (.error (.st (.ConsumerError e)), cs1)) ∧
    (∀ cs1 hdr cs2 cs3 cs4, c.init cs = (.Continue, cs1) →
      parse_header ε bytes = .ok hdr →
      c.consumeHeader cs1 hdr = (.Continue, cs2) →
      parseLoopF σ ε bytes c (bytes.length + 1) cs2 ⟨20, 0, []⟩ =
        (.ok (), cs3) →
      c.finalize cs3 = (.Stop, cs4) →
      parse σ ε bytes c cs = (.error (.st .ConsumerStopRequested), cs4)) ∧
    (∀ cs1 hdr cs2 cs3 cs4 e, c.init cs = (.Continue, cs1) →
      parse_header ε bytes = .ok hdr →
      c.consumeHeader cs1 hdr = (.Continue, cs2) →
      parseLoopF σ ε bytes c (bytes.length + 1) cs2 ⟨20, 0, []⟩ =
        (.ok (), cs3) →
      c.finalize cs3 = (.Error e, cs4) →
      parse σ ε bytes c cs = (.error (.st (.ConsumerError e)), cs4)) ∧
    ((parse σ ε bytes c cs).1 ≠ .error (.st .Complete)) ∧
    (∀ fuel cs0 st,
      (parseLoopF σ ε bytes c fuel cs0 st).1 ≠ .error (.st .Complete)) := by
  refine ⟨?_, ?_, ?_, ?_, ?_, ?_, ?_, ?_, ?_,
    fun fuel cs0 st => parseLoopF_ne_complete fuel cs0 st⟩
  · intro cs1 h
    unfold parse
    rw [h]
  · intro e cs1 h
    unfold parse
    rw [h]
  · intro cs1 hdr cs2 h1 h2 h3
    unfold parse
    simp only [h1, h2, h3]
  · intro cs1 hdr cs2 e h1 h2 h3
    unfold parse
    simp only [h1, h2, h3]
  · intro fuel st inst st1 tr1 cs1 h1 h2 h3
    unfold parseLoopF
    simp only [h1, h2, h3]
  · intro fuel st inst st1 tr1 cs1 e h1 h2 h3
    unfold parseLoopF
    simp only [h1, h2, h3]
  · intro cs1 hdr cs2 cs3 cs4 h1 h2 h3 h4 h5
    unfold parse
    simp only [h1, h2, h3, h4, h5]
  · intro cs1 hdr cs2 cs3 cs4 e h1 h2 h3 h4 h5
    unfold parse
    simp only [h1, h2, h3, h4, h5]
  · rcases hi : c.init cs with ⟨a, cs1⟩
    cases a with
    | Stop => simp [parse, hi]
    | Error e => simp [parse, hi]
    | Continue =>
      cases hh : parse_header ε bytes with
      | error e1 =>
        simp only [parse, hi]
        simp only [hh]
        intro hx
        simp only [Except.error.injEq, PErr.st.injEq] at hx
        subst hx
        exact parse_header_ne_complete hh
      | ok hdr =>
        rcases hch : c.consumeHeader cs1 hdr with ⟨a2, cs2⟩
        cases a2 with
        | Stop => simp [parse, hi, hh, hch]
        | Error e => simp [parse, hi, hh, hch]
        | Continue =>
          rcases hlp : parseLoopF σ ε bytes c (bytes.length + 1) cs2
              ⟨20, 0, []⟩ with ⟨r3, cs3⟩
          cases r3 with
          | error e3 =>
            have hne := @parseLoopF_ne_complete σ ε bytes c
              (bytes.length + 1) cs2 ⟨20, 0, []⟩
            rw [hlp] at hne
            simp only [parse, hi, hh, hch, hlp]
            exact hne
          | ok u =>
            cases u
            rcases hf : c.finalize cs3 with ⟨a4, cs4⟩
            cases a4 <;> simp [parse, hi, hh, hch, hlp, hf]

theorem c7_witness :
    parse Unit Unit ZBH stopAtInit () =
        (.error (.st .ConsumerStopRequested), ()) ∧
      parse Unit Unit ZBH errAtHeader () =
        (.error (.st (.ConsumerError ())), ()) ∧
      parseLoopF Unit Unit (ZBH ++ [0, 0, 1, 0]) stopAtInst (0 + 1) ()
          ⟨20, 0, []⟩ =
        (.error (.st .ConsumerStopRequested), ()) ∧
      parse Unit Unit ZBH stopAtFinalize () =
        (.error (.st .ConsumerStopRequested), ()) ∧
      (parse Unit Unit ZBH stopAtInit ()).1 ≠ .error (.st .Complete) :=
  ⟨(c7_theorem Unit Unit ZBH stopAtInit ()).1 () rfl,
   (c7_theorem Unit Unit ZBH errAtHeader ()).2.2.2.1 ()
     ⟨119734787, 65536, 0, 0, 0⟩ () () rfl (by decide) rfl,
   (c7_theorem Unit Unit (ZBH ++ [0, 0, 1, 0]) stopAtInst ()).2.2.2.2.1 0
     ⟨20, 0, []⟩ ⟨⟨0, "Nop", []⟩, none, none, []⟩ ⟨24, 1, []⟩ [] ()
     (by decide) (by decide) rfl,
   (c7_theorem Unit Unit ZBH stopAtFinalize ()).2.2.2.2.2.2.1 ()
     ⟨119734787, 65536, 0, 0, 0⟩ () () () rfl (by decide) rfl (by decide) rfl,
   (c7_theorem Unit Unit ZBH stopAtInit ()).2.2.2.2.2.2.2.2.1⟩

end Rspirv
